import Mathlib

set_option maxRecDepth 100000

/-!
Verification of the collapsed-stack-to-JSON converter of profile-bee
(`src/profile-bee/src/html.rs`, function `collapse_to_json`).

The Rust code keeps a tree of shared mutable nodes (`Rc<RefCell<Stack>>`)
together with a vector `crumbs` of handles onto the current root-to-leaf
path.  We embed it as an arena: a list of `Stack` records addressed by
index, with `crumbs` a list of indices into the arena (index 0 is the
synthetic root).  Every panic site of the Rust code (the
`.expect("stack")`, the slice indexings, the `unwrap_or_else` on
`crumbs.last()` and the `.expect` on `serde_json::to_string`) is modelled
as `Option.none` / `Except.error`, so totality of the embedded function
is exactly panic-freedom of the original.
-/

/-- One tree node, mirroring the Rust `struct Stack` (`name`, `value`,
`children`); the children are arena indices. -/
structure Stack where
  name : String
  value : Nat
  children : List Nat
deriving DecidableEq, Repr

/-- The builder state: the arena of nodes (index 0 is the root created by
`Stack::new("")`) and the `crumbs` vector of arena indices. -/
structure BuildState where
  arena : List Stack
  crumbs : List Nat
deriving DecidableEq, Repr

/-- Rust `str::split(sep)` on a single separator character: splits at every
occurrence, keeping empty pieces, and yields `[""]` on the empty string. -/
def splitCharAux (sep : Char) : List Char → List Char → List String
  | [], acc => [String.mk acc.reverse]
  | c :: cs, acc =>
    if c = sep then String.mk acc.reverse :: splitCharAux sep cs []
    else splitCharAux sep cs (c :: acc)

/-- Split a string at a separator character, Rust `split` semantics. -/
def splitChar (sep : Char) (s : String) : List String :=
  splitCharAux sep s.data []

/-- Rust `str::parse::<usize>()`: an optional leading `+`, then one or more
ASCII digits, value below `2 ^ 64`; anything else is a parse error. -/
def rustParseUsize (s : String) : Option Nat :=
  let chars := if s.data.head? = some '+' then s.data.tail else s.data
  if chars = [] then none
  else if chars.all (fun c => c.isDigit) then
    let n := chars.foldl (fun acc c => acc * 10 + (c.toNat - 48)) 0
    if n < 2 ^ 64 then some n else none
  else none

/-- The count of one input line: the token after the first space parsed as
`usize`, defaulting to `1` when absent or unparsable
(`parts.next().and_then(|v| v.parse::<usize>().ok()).unwrap_or(1)`). -/
def lineCount (line : String) : Nat :=
  match (splitChar ' ' line)[1]? with
  | some t =>
    match rustParseUsize t with
    | some n => n
    | none => 1
  | none => 1

/-- The frame names of one input line: the part before the first space,
split at semicolons (`parts.next().map(|v| v.split(";")).expect("stack")`);
`none` models the `expect` panic. -/
def lineNames (line : String) : Option (List String) :=
  match (splitChar ' ' line).head? with
  | none => none
  | some s => some (splitChar ';' s)

/-- The "new flow" body of the frame loop: truncate the crumbs to
`depth`, allocate a fresh node (`Stack::new(name)`) at the next arena
index, append it to the children of `crumbs[depth - 1]` and push it onto
the crumbs.  `none` models an out-of-bounds indexing panic. -/
def newNode (st : BuildState) (depth : Nat) (name : String) : Option BuildState :=
  let crumbs1 := st.crumbs.take depth
  let idx := st.arena.length
  let arena1 := st.arena ++ [⟨name, 0, []⟩]
  match crumbs1[depth - 1]? with
  | none => none
  | some parent =>
    match arena1[parent]? with
    | none => none
    | some pnode =>
      some ⟨arena1.set parent ⟨pnode.name, pnode.value, pnode.children ++ [idx]⟩,
            crumbs1 ++ [idx]⟩

/-- One iteration of the Rust `while let Some(name) = names.next()` body,
called with the already incremented `depth`: on a divergence
(`depth >= crumbs.len() || name != crumbs[depth].borrow().name`, with the
short-circuit guaranteeing the index is in bounds when read) run
`newNode`, otherwise reuse the existing path entry unchanged. -/
def stepFrame (st : BuildState) (depth : Nat) (name : String) : Option BuildState :=
  if st.crumbs.length ≤ depth then newNode st depth name
  else
    match st.crumbs[depth]? with
    | none => none
    | some i =>
      match st.arena[i]? with
      | none => none
      | some node =>
        if node.name != name then newNode st depth name else some st

/-- The whole frame loop of one record: `depth` starts at `0` and is
incremented before each frame; returns the final state and final depth. -/
def stepFrames (st : BuildState) (depth : Nat) : List String → Option (BuildState × Nat)
  | [] => some (st, depth)
  | n :: rest =>
    match stepFrame st (depth + 1) n with
    | none => none
    | some st' => stepFrames st' (depth + 1) rest

/-- The post-loop truncation
`if depth + 1 != crumbs.len() { crumbs.truncate(depth); }`. -/
def postTruncate (st : BuildState) (d : Nat) : BuildState :=
  if d + 1 ≠ st.crumbs.length then ⟨st.arena, st.crumbs.take d⟩ else st

/-- The active `self_value = true` branch: add the record's count to the
value of the last node on the crumbs only
(`crumbs.last().unwrap_or_else(..).borrow_mut().value += count`); `none`
models the `unwrap_or_else(|| unreachable!(..))` and an invalid index. -/
def applyCount (st : BuildState) (count : Nat) : Option BuildState :=
  match st.crumbs.getLast? with
  | none => none
  | some i =>
    match st.arena[i]? with
    | none => none
    | some node =>
      some ⟨st.arena.set i ⟨node.name, node.value + count, node.children⟩, st.crumbs⟩

/-- Processing of one input record: parse, frame loop, post-loop
truncation, count application. -/
def processRecord (st : BuildState) (line : String) : Option BuildState :=
  match lineNames line with
  | none => none
  | some names =>
    match stepFrames st 0 names with
    | none => none
    | some (st1, d) => applyCount (postTruncate st1 d) (lineCount line)

/-- The `for stack in stks` loop. -/
def buildFrom (st : BuildState) : List String → Option BuildState
  | [] => some st
  | line :: rest =>
    match processRecord st line with
    | none => none
    | some st' => buildFrom st' rest

/-- The initial state: `let root = Stack::new(""); let mut crumbs = vec![root]`. -/
def initState : BuildState :=
  ⟨[⟨"", 0, []⟩], [0]⟩

/-- Running the builder on the whole input. -/
def buildState (stks : List String) : Option BuildState :=
  buildFrom initState stks

/-- serde_json's escaping of one character inside a JSON string. -/
def escapeChar (c : Char) : String :=
  if c = '"' then "\\\""
  else if c = '\\' then "\\\\"
  else if c = Char.ofNat 8 then "\\b"
  else if c = Char.ofNat 12 then "\\f"
  else if c = '\n' then "\\n"
  else if c = '\r' then "\\r"
  else if c = '\t' then "\\t"
  else if c.toNat < 32 then
    "\\u00" ++ String.mk [(Nat.toDigits 16 c.toNat).headD '0', (Nat.toDigits 16 c.toNat).getLastD '0']
  else String.singleton c

/-- serde_json's rendering of a Rust `&str` as a JSON string literal. -/
def jsonString (s : String) : String :=
  "\"" ++ String.join (s.data.map escapeChar) ++ "\""

/-- Sequencing of an option-valued serializer over a list of arena
indices (failure of any element fails the whole list). -/
def seqOption (f : Nat → Option String) : List Nat → Option (List String)
  | [] => some []
  | j :: rest =>
    match f j, seqOption f rest with
    | some s, some l => some (s :: l)
    | _, _ => none

/-- serde_json's recursive rendering of the node at arena index `i`.  The
derived `Serialize` emits the fields in declaration order `name`, `value`,
`children`, with no whitespace.  serde_json recurses over the actual
pointer tree; the arena embedding fuels the recursion, and fuel
exhaustion is an (unreachable, see `serde_json_to_string_ok`) failure. -/
def jsonIdx (arena : List Stack) : Nat → Nat → Option String
  | 0, _ => none
  | fuel + 1, i =>
    match arena[i]? with
    | none => none
    | some node =>
      match seqOption (fun j => jsonIdx arena fuel j) node.children with
      | none => none
      | some kids =>
        some ("\x7b\"name\":" ++ jsonString node.name ++ ",\"value\":" ++
              toString node.value ++ ",\"children\":[" ++
              String.intercalate "," kids ++ "]\x7d")

/-- `serde_json::to_string(&root)`: a `Result`, mirrored by `Except`. -/
def serde_json_to_string (arena : List Stack) : Except String String :=
  match jsonIdx arena arena.length 0 with
  | some s => Except.ok s
  | none => Except.error "serialization failure"

/-- The full `collapse_to_json`: build the tree, then serialize the root;
`none` models any panic, in particular the
`.expect("serialization to json")` on an encoding error. -/
def collapse_to_json (stks : List String) : Option String :=
  match buildState stks with
  | none => none
  | some st =>
    match serde_json_to_string st.arena with
    | Except.ok s => some s
    | Except.error _ => none

/-- The frame names of a line as used for stating properties (the value
the frame loop actually walks when the line parses). -/
def recFrames (line : String) : List String :=
  splitChar ';' ((splitChar ' ' line).headD "")

/-- Specification-side quantity: the sum of the counts of all records. -/
def specTotalCount (stks : List String) : Nat :=
  stks.foldl (fun acc l => acc + lineCount l) 0

/-- Specification-side quantity: the sum of the counts of all records
whose frame-path's first `path.length` frames equal `path`. -/
def specMatchSum (stks : List String) (path : List String) : Nat :=
  specTotalCount (stks.filter (fun line => (recFrames line).take path.length = path))

/-- Scenario A of the specification — the input of the repository's own
`test_serialization`. -/
def scenarioA : List String :=
  ["a 1", "a;b 1", "a;b 1", "a;b;c 1", "a;b;c;d 1", "a;b;e 3", "f;g 1"]


/-- The JSON document required by Scenario A of the specification (and
asserted by the repository's own `test_serialization`). -/
def specScenarioAExpected : String :=
  "\x7b\"name\":\"\",\"value\":9,\"children\":[\x7b\"name\":\"a\",\"value\":8,\"children\":[\x7b\"name\":\"b\",\"value\":7,\"children\":[\x7b\"name\":\"c\",\"value\":2,\"children\":[\x7b\"name\":\"d\",\"value\":1,\"children\":[]\x7d]\x7d,\x7b\"name\":\"e\",\"value\":3,\"children\":[]\x7d]\x7d]\x7d,\x7b\"name\":\"f\",\"value\":1,\"children\":[\x7b\"name\":\"g\",\"value\":1,\"children\":[]\x7d]\x7d]\x7d"

/-- Well-formedness of the arena, guaranteed by construction in Rust
(every child handle points to a node allocated after its parent): every
child index is strictly greater than its parent's index and in bounds. -/
def goodArena (arena : List Stack) : Prop :=
  ∀ i node, arena[i]? = some node → ∀ j ∈ node.children, i < j ∧ j < arena.length

/-- The builder invariant: the crumbs are never empty (the root is pushed
before the loop and every truncation keeps at least the root), every
crumb is a valid arena index, and the arena is well formed. -/
structure BuilderInv (st : BuildState) : Prop where
  crumbs_ne : st.crumbs ≠ []
  crumbs_lt : ∀ i ∈ st.crumbs, i < st.arena.length
  good : goodArena st.arena

/-- C1 (code bug evaluation): on the Scenario A input the builder does
NOT aggregate cumulatively — the active `self_value = true` branch adds
each record's count only to the deepest node of the path, so the depth-1
node `"a"` ends with value 1, although the counts of the records whose
first frame is `"a"` sum to 8 (which is what the claim, invariant I2 and
the repository's own `test_serialization` require). -/
theorem c1_counts_not_cumulative :
    (buildState scenarioA).bind (fun st => st.arena[1]?) = some ⟨"a", 1, [2]⟩ ∧
    specMatchSum scenarioA ["a"] = 8 := by
  exact ⟨by decide, by decide⟩

/-- C2 (code bug evaluation): on the Scenario A input `collapse_to_json`
returns the leaf-only-aggregated document (root value 0, `"a"` value 1,
…) and not the cumulative document the claim — and the repository's own
`test_serialization` — require. -/
theorem c2_scenarioA_serializes_leaf_only :
    collapse_to_json scenarioA =
      some "\x7b\"name\":\"\",\"value\":0,\"children\":[\x7b\"name\":\"a\",\"value\":1,\"children\":[\x7b\"name\":\"b\",\"value\":2,\"children\":[\x7b\"name\":\"c\",\"value\":1,\"children\":[\x7b\"name\":\"d\",\"value\":1,\"children\":[]\x7d]\x7d,\x7b\"name\":\"e\",\"value\":3,\"children\":[]\x7d]\x7d]\x7d,\x7b\"name\":\"f\",\"value\":0,\"children\":[\x7b\"name\":\"g\",\"value\":1,\"children\":[]\x7d]\x7d]\x7d" ∧
    collapse_to_json scenarioA ≠ some specScenarioAExpected := by
  exact ⟨by rfl, by decide⟩

/-- C3 (code bug evaluation): on the Scenario A input the root node keeps
value 0 although the records' counts sum to 9; the claim (property P1 and
the repository's own test) requires the root value to be that sum. -/
theorem c3_root_value_not_total :
    (buildState scenarioA).bind (fun st => st.arena[0]?) = some ⟨"", 0, [1, 6]⟩ ∧
    specTotalCount scenarioA = 9 := by
  exact ⟨by decide, by decide⟩

/-- C4 (counterexample): after the record `"a;b 1"` following
`"a;b;c 1"`, the transient path (4 entries) is longer than the number of
frames just processed plus one (2 + 1 = 3), but it is truncated to
length 2, not to length 3 as the claim states. -/
theorem c4_counterexample_truncates_below :
    (buildState ["a;b;c 1", "a;b 1"]).map (fun st => st.crumbs.length) ≠
      some ((recFrames "a;b 1").length + 1) ∧
    (buildState ["a;b;c 1", "a;b 1"]).map (fun st => st.crumbs.length) =
      some (recFrames "a;b 1").length := by
  exact ⟨by decide, by decide⟩

/-- C4 (amended): after the builder consumes all frame names of a record,
if the transient path is longer than the number of frames just processed
plus one, `crumbs.truncate(depth)` truncates it to exactly the number of
frames just processed (one entry shorter than the claim states, dropping
the deepest frame just positioned), and the count-application step leaves
the path unchanged, so this is the path carried into the next record. -/
theorem c4_amended_post_truncation (st : BuildState) (line : String) (names : List String)
    (st1 stF : BuildState) (d : Nat)
    (hn : lineNames line = some names)
    (hf : stepFrames st 0 names = some (st1, d))
    (hlong : d + 1 < st1.crumbs.length)
    (hp : processRecord st line = some stF) :
    stF.crumbs = st1.crumbs.take d ∧ stF.crumbs.length = d := by
  have hpt : postTruncate st1 d = ⟨st1.arena, st1.crumbs.take d⟩ := by
    unfold postTruncate
    rw [if_pos (by omega)]
  have hcr : stF.crumbs = (postTruncate st1 d).crumbs := by
    simp only [processRecord, hn, hf] at hp
    simp only [applyCount] at hp
    cases hL : (postTruncate st1 d).crumbs.getLast? with
    | none => simp only [hL] at hp; simp at hp
    | some i =>
      simp only [hL] at hp
      cases hA : (postTruncate st1 d).arena[i]? with
      | none => simp only [hA] at hp; simp at hp
      | some node =>
        simp only [hA] at hp
        cases hp
        rfl
  rw [hcr, hpt]
  refine ⟨rfl, ?_⟩
  simp only [List.length_take]
  omega

/-- Witness for `c4_amended_post_truncation` at the state reached after
`"a;b;c 1"` and the record `"a;b 1"`. -/
theorem c4_amended_post_truncation_witness :
    (⟨[⟨"", 0, [1]⟩, ⟨"a", 1, [2]⟩, ⟨"b", 0, [3]⟩, ⟨"c", 1, []⟩], [0, 1]⟩ : BuildState).crumbs =
      (⟨[⟨"", 0, [1]⟩, ⟨"a", 0, [2]⟩, ⟨"b", 0, [3]⟩, ⟨"c", 1, []⟩], [0, 1, 2, 3]⟩ : BuildState).crumbs.take 2 ∧
    (⟨[⟨"", 0, [1]⟩, ⟨"a", 1, [2]⟩, ⟨"b", 0, [3]⟩, ⟨"c", 1, []⟩], [0, 1]⟩ : BuildState).crumbs.length = 2 :=
  c4_amended_post_truncation
    ⟨[⟨"", 0, [1]⟩, ⟨"a", 0, [2]⟩, ⟨"b", 0, [3]⟩, ⟨"c", 1, []⟩], [0, 1, 2, 3]⟩
    "a;b 1" ["a", "b"]
    ⟨[⟨"", 0, [1]⟩, ⟨"a", 0, [2]⟩, ⟨"b", 0, [3]⟩, ⟨"c", 1, []⟩], [0, 1, 2, 3]⟩
    ⟨[⟨"", 0, [1]⟩, ⟨"a", 1, [2]⟩, ⟨"b", 0, [3]⟩, ⟨"c", 1, []⟩], [0, 1]⟩
    2 (by decide) (by decide) (by decide) (by decide)

/-- C5 (counterexample): the empty input line is not treated as a path
with zero frames — `"".split(';')` yields one empty frame, so the builder
creates a non-root child node (the arena has 2 nodes) and the root keeps
value 0 (the count is not applied to the root). -/
theorem c5_counterexample_empty_line_creates_child :
    (buildState [""]).map (fun st => st.arena.length) = some 2 ∧
    (buildState [""]).bind (fun st => st.arena[0]?) = some ⟨"", 0, [1]⟩ := by
  exact ⟨by decide, by decide⟩

/-- C5 (amended): an empty input line is not rejected; it is treated as a
path with exactly one empty-named frame: a child node named `""` is
created under the root, the record's count (defaulting to 1) is added to
that child only, and the root keeps value 0. -/
theorem c5_amended_empty_line_behavior :
    buildState [""] = some ⟨[⟨"", 0, [1]⟩, ⟨"", 1, []⟩], [0, 1]⟩ ∧
    collapse_to_json [""] =
      some "\x7b\"name\":\"\",\"value\":0,\"children\":[\x7b\"name\":\"\",\"value\":1,\"children\":[]\x7d]\x7d" := by
  exact ⟨by decide, by rfl⟩

/-- C7: for every input line, the count is the token after the first
space parsed as a base-10 non-negative `usize`; if the token is absent or
fails to parse, the count defaults to 1. -/
theorem c7_count_parsing_leniency (line : String) :
    ((splitChar ' ' line)[1]? = none → lineCount line = 1) ∧
    (∀ t, (splitChar ' ' line)[1]? = some t → rustParseUsize t = none → lineCount line = 1) ∧
    (∀ t n, (splitChar ' ' line)[1]? = some t → rustParseUsize t = some n → lineCount line = n) := by
  refine ⟨fun h => ?_, fun t h hp => ?_, fun t n h hp => ?_⟩
  · simp only [lineCount, h]
  · simp only [lineCount, h, hp]
  · simp only [lineCount, h, hp]

/-- Witness for `c7_count_parsing_leniency`: the line `"x"` (no count
token) has count 1, `"x zzz"` (unparsable token) has count 1, and
`"a;b 3"` has count 3. -/
theorem c7_count_parsing_leniency_witness :
    lineCount "x" = 1 ∧ lineCount "x zzz" = 1 ∧ lineCount "a;b 3" = 3 :=
  ⟨(c7_count_parsing_leniency "x").1 (by decide),
   (c7_count_parsing_leniency "x zzz").2.1 "zzz" (by decide) (by decide),
   (c7_count_parsing_leniency "a;b 3").2.2 "3" 3 (by decide) (by decide)⟩

/-- C8: on the empty input the builder produces only the synthetic root
with value 0 and no children, serialized exactly as the claim states. -/
theorem c8_empty_input_output :
    collapse_to_json [] = some "\x7b\"name\":\"\",\"value\":0,\"children\":[]\x7d" := by
  rfl

/-- C9: the builder-plus-serializer is a pure function of its input
sequence — two runs on the same sequence yield identical results. -/
theorem c9_deterministic (s1 s2 : List String) (h : s1 = s2) :
    collapse_to_json s1 = collapse_to_json s2 := by
  rw [h]

/-- Witness for `c9_deterministic` at the Scenario A input. -/
theorem c9_deterministic_witness :
    collapse_to_json scenarioA = collapse_to_json scenarioA :=
  c9_deterministic scenarioA scenarioA rfl

theorem splitCharAux_ne_nil (sep : Char) (cs acc : List Char) :
    splitCharAux sep cs acc ≠ [] := by
  induction cs generalizing acc with
  | nil => simp [splitCharAux]
  | cons c cs ih =>
    simp only [splitCharAux]
    split
    · simp
    · exact ih _

theorem splitChar_ne_nil (sep : Char) (s : String) : splitChar sep s ≠ [] :=
  splitCharAux_ne_nil sep s.data []

theorem mem_of_getElem?_list {α : Type} {l : List α} {i : Nat} {a : α}
    (h : l[i]? = some a) : a ∈ l := by
  obtain ⟨hlt, rfl⟩ := List.getElem?_eq_some.mp h
  exact List.getElem_mem hlt

theorem initState_inv : BuilderInv initState := by
  constructor
  · simp [initState]
  · intro i hi
    simp only [initState, List.mem_singleton] at hi
    simp [initState, hi]
  · intro i node h j hj
    cases i with
    | zero =>
      have hn : node = ⟨"", 0, []⟩ := by
        have h2 : some (⟨"", 0, []⟩ : Stack) = some node := by
          simpa [initState] using h
        exact (Option.some.inj h2).symm
      rw [hn] at hj
      simp at hj
    | succ k =>
      simp [initState] at h

theorem newNode_ok (st : BuildState) (depth : Nat) (name : String)
    (hInv : BuilderInv st) (h1 : 1 ≤ depth) (h2 : depth ≤ st.crumbs.length) :
    ∃ st', newNode st depth name = some st' ∧ BuilderInv st' ∧
      st'.crumbs.length = depth + 1 := by
  have ht : (st.crumbs.take depth).length = depth := by
    rw [List.length_take]
    omega
  have hd1 : depth - 1 < (st.crumbs.take depth).length := by omega
  obtain ⟨parent, hpar⟩ : ∃ p, (st.crumbs.take depth)[depth - 1]? = some p :=
    ⟨_, List.getElem?_eq_getElem hd1⟩
  have hparA : parent < st.arena.length :=
    hInv.crumbs_lt parent (List.take_subset depth st.crumbs (mem_of_getElem?_list hpar))
  obtain ⟨pnode, hpnA⟩ : ∃ p, st.arena[parent]? = some p :=
    ⟨_, List.getElem?_eq_getElem hparA⟩
  have hpn : (st.arena ++ [(⟨name, 0, []⟩ : Stack)])[parent]? = some pnode := by
    rw [List.getElem?_append_left hparA]
    exact hpnA
  have heq : newNode st depth name =
      some ⟨(st.arena ++ [(⟨name, 0, []⟩ : Stack)]).set parent
              ⟨pnode.name, pnode.value, pnode.children ++ [st.arena.length]⟩,
            st.crumbs.take depth ++ [st.arena.length]⟩ := by
    simp only [newNode, hpar, hpn]
  have hlen1 : (st.arena ++ [(⟨name, 0, []⟩ : Stack)]).length = st.arena.length + 1 := by
    simp
  have hlen2 : ((st.arena ++ [(⟨name, 0, []⟩ : Stack)]).set parent
      ⟨pnode.name, pnode.value, pnode.children ++ [st.arena.length]⟩).length =
      st.arena.length + 1 := by
    rw [List.length_set, hlen1]
  refine ⟨_, heq, ⟨?_, ?_, ?_⟩, ?_⟩
  · simp
  · intro i hi
    rw [hlen2]
    rcases List.mem_append.mp hi with hi | hi
    · have := hInv.crumbs_lt i (List.take_subset depth st.crumbs hi)
      omega
    · rw [List.mem_singleton] at hi
      omega
  · intro k nk hk j hj
    rw [hlen2]
    rw [List.getElem?_set] at hk
    by_cases hpk : parent = k
    · subst hpk
      rw [if_pos rfl, if_pos (by omega)] at hk
      have hnk : nk = ⟨pnode.name, pnode.value, pnode.children ++ [st.arena.length]⟩ :=
        (Option.some.inj hk).symm
      subst hnk
      rcases List.mem_append.mp hj with hj | hj
      · have := hInv.good parent pnode hpnA j hj
        omega
      · rw [List.mem_singleton] at hj
        omega
    · rw [if_neg hpk] at hk
      rcases Nat.lt_trichotomy k st.arena.length with hkA | hkA | hkA
      · rw [List.getElem?_append_left hkA] at hk
        have := hInv.good k nk hk j hj
        omega
      · subst hkA
        rw [List.getElem?_concat_length] at hk
        have hnk : nk = ⟨name, 0, []⟩ := (Option.some.inj hk).symm
        subst hnk
        simp at hj
      · rw [List.getElem?_eq_none (by omega)] at hk
        cases hk
  · simp [ht]

theorem stepFrame_ok (st : BuildState) (depth : Nat) (name : String)
    (hInv : BuilderInv st) (h1 : 1 ≤ depth) (h2 : depth ≤ st.crumbs.length) :
    ∃ st', stepFrame st depth name = some st' ∧ BuilderInv st' ∧
      depth < st'.crumbs.length := by
  obtain ⟨stN, hN, hNi, hNl⟩ := newNode_ok st depth name hInv h1 h2
  unfold stepFrame
  by_cases hlen : st.crumbs.length ≤ depth
  · rw [if_pos hlen]
    exact ⟨stN, hN, hNi, by omega⟩
  · rw [if_neg hlen]
    have hdl : depth < st.crumbs.length := by omega
    obtain ⟨i, hi⟩ : ∃ i, st.crumbs[depth]? = some i :=
      ⟨_, List.getElem?_eq_getElem hdl⟩
    obtain ⟨node, hnode⟩ : ∃ nd, st.arena[i]? = some nd :=
      ⟨_, List.getElem?_eq_getElem (hInv.crumbs_lt i (mem_of_getElem?_list hi))⟩
    simp only [hi, hnode]
    by_cases hname : node.name = name
    · rw [if_neg (by simp [hname])]
      exact ⟨st, rfl, hInv, by omega⟩
    · rw [if_pos (by simp [hname])]
      exact ⟨stN, hN, hNi, by omega⟩

theorem stepFrames_ok (names : List String) (st : BuildState) (depth : Nat)
    (hInv : BuilderInv st) (hd : depth < st.crumbs.length) :
    ∃ st1, stepFrames st depth names = some (st1, depth + names.length) ∧
      BuilderInv st1 ∧ depth + names.length < st1.crumbs.length := by
  induction names generalizing st depth with
  | nil => exact ⟨st, by simp [stepFrames], hInv, by simpa using hd⟩
  | cons n rest ih =>
    obtain ⟨st', hsf, hInv', hlt'⟩ := stepFrame_ok st (depth + 1) n hInv (by omega) (by omega)
    obtain ⟨st1, hrest, hInv1, hlt1⟩ := ih st' (depth + 1) hInv' hlt'
    have harith : depth + 1 + rest.length = depth + (n :: rest).length := by
      simp
      omega
    refine ⟨st1, ?_, hInv1, by simp only [List.length_cons]; omega⟩
    simp only [stepFrames, hsf]
    rw [← harith]
    exact hrest

theorem postTruncate_inv (st : BuildState) (d : Nat) (hInv : BuilderInv st) (hd : 1 ≤ d) :
    BuilderInv (postTruncate st d) := by
  unfold postTruncate
  split
  · refine ⟨?_, ?_, hInv.good⟩
    · refine List.length_pos.mp ?_
      rw [List.length_take]
      have h0 : 0 < st.crumbs.length := List.length_pos.mpr hInv.crumbs_ne
      omega
    · intro i hi
      exact hInv.crumbs_lt i (List.take_subset d st.crumbs hi)
  · exact hInv

theorem applyCount_ok (st : BuildState) (c : Nat) (hInv : BuilderInv st) :
    ∃ st', applyCount st c = some st' ∧ BuilderInv st' := by
  have h0 : 0 < st.crumbs.length := List.length_pos.mpr hInv.crumbs_ne
  obtain ⟨i, hL'⟩ : ∃ i, st.crumbs[st.crumbs.length - 1]? = some i :=
    ⟨_, List.getElem?_eq_getElem (by omega)⟩
  have hL : st.crumbs.getLast? = some i := by
    rw [List.getLast?_eq_getElem?]
    exact hL'
  have hiA : i < st.arena.length := hInv.crumbs_lt i (mem_of_getElem?_list hL')
  obtain ⟨node, hnode⟩ : ∃ nd, st.arena[i]? = some nd :=
    ⟨_, List.getElem?_eq_getElem hiA⟩
  have heq : applyCount st c =
      some ⟨st.arena.set i ⟨node.name, node.value + c, node.children⟩, st.crumbs⟩ := by
    simp only [applyCount, hL, hnode]
  refine ⟨_, heq, ⟨hInv.crumbs_ne, ?_, ?_⟩⟩
  · intro x hx
    rw [List.length_set]
    exact hInv.crumbs_lt x hx
  · intro k nk hk j hj
    rw [List.length_set]
    rw [List.getElem?_set] at hk
    by_cases hik : i = k
    · subst hik
      rw [if_pos rfl, if_pos hiA] at hk
      have hnk : nk = ⟨node.name, node.value + c, node.children⟩ :=
        (Option.some.inj hk).symm
      subst hnk
      exact hInv.good i node hnode j hj
    · rw [if_neg hik] at hk
      exact hInv.good k nk hk j hj

theorem processRecord_ok (st : BuildState) (line : String) (hInv : BuilderInv st) :
    ∃ st', processRecord st line = some st' ∧ BuilderInv st' := by
  obtain ⟨s0, rest0, hsplit⟩ : ∃ a l, splitChar ' ' line = a :: l := by
    cases h : splitChar ' ' line with
    | nil => exact absurd h (splitChar_ne_nil ' ' line)
    | cons a l => exact ⟨a, l, rfl⟩
  have hnames : lineNames line = some (splitChar ';' s0) := by
    simp only [lineNames, hsplit, List.head?_cons]
  have hlen1 : 1 ≤ (splitChar ';' s0).length := by
    cases h : splitChar ';' s0 with
    | nil => exact absurd h (splitChar_ne_nil ';' s0)
    | cons a l => simp
  have h0 : 0 < st.crumbs.length := List.length_pos.mpr hInv.crumbs_ne
  obtain ⟨st1, hsf, hInv1, hlt1⟩ := stepFrames_ok (splitChar ';' s0) st 0 hInv h0
  have hInv2 : BuilderInv (postTruncate st1 (0 + (splitChar ';' s0).length)) :=
    postTruncate_inv st1 (0 + (splitChar ';' s0).length) hInv1 (by omega)
  obtain ⟨st', hac, hInv'⟩ :=
    applyCount_ok (postTruncate st1 (0 + (splitChar ';' s0).length)) (lineCount line) hInv2
  refine ⟨st', ?_, hInv'⟩
  simp only [processRecord, hnames, hsf]
  exact hac

theorem buildFrom_ok (stks : List String) (st : BuildState) (hInv : BuilderInv st) :
    ∃ st', buildFrom st stks = some st' ∧ BuilderInv st' := by
  induction stks generalizing st with
  | nil => exact ⟨st, rfl, hInv⟩
  | cons line rest ih =>
    obtain ⟨st1, hp, hInv1⟩ := processRecord_ok st line hInv
    obtain ⟨st', hb, hInv'⟩ := ih st1 hInv1
    refine ⟨st', ?_, hInv'⟩
    simp only [buildFrom, hp]
    exact hb

theorem buildState_ok (stks : List String) :
    ∃ st, buildState stks = some st ∧ BuilderInv st :=
  buildFrom_ok stks initState initState_inv

theorem seqOption_ok (f : Nat → Option String) (l : List Nat)
    (h : ∀ j ∈ l, (f j).isSome = true) : (seqOption f l).isSome = true := by
  induction l with
  | nil => rfl
  | cons j rest ih =>
    obtain ⟨s, hs⟩ := Option.isSome_iff_exists.mp (h j (by simp))
    obtain ⟨strs, hstrs⟩ := Option.isSome_iff_exists.mp (ih (fun x hx => h x (by simp [hx])))
    simp [seqOption, hs, hstrs]

theorem jsonIdx_ok (arena : List Stack) (hg : goodArena arena) :
    ∀ fuel i, i < arena.length → arena.length - i ≤ fuel →
    (jsonIdx arena fuel i).isSome = true := by
  intro fuel
  induction fuel with
  | zero =>
    intro i hi hf
    exact absurd hf (by omega)
  | succ f ih =>
    intro i hi hf
    obtain ⟨node, hnode⟩ : ∃ nd, arena[i]? = some nd :=
      ⟨_, List.getElem?_eq_getElem hi⟩
    have hkids : (seqOption (fun j => jsonIdx arena f j) node.children).isSome = true := by
      refine seqOption_ok _ _ (fun j hj => ?_)
      have hb := hg i node hnode j hj
      exact ih j hb.2 (by omega)
    obtain ⟨kids, hk⟩ := Option.isSome_iff_exists.mp hkids
    simp [jsonIdx, hnode, hk]

theorem serde_json_to_string_ok (arena : List Stack) (hg : goodArena arena)
    (h0 : 0 < arena.length) : ∃ s, serde_json_to_string arena = Except.ok s := by
  obtain ⟨s, hs⟩ := Option.isSome_iff_exists.mp
    (jsonIdx_ok arena hg arena.length 0 h0 (by omega))
  exact ⟨s, by simp only [serde_json_to_string, hs]⟩

theorem arena_pos_of_inv (st : BuildState) (hInv : BuilderInv st) : 0 < st.arena.length := by
  obtain ⟨i, hi⟩ := List.exists_mem_of_ne_nil st.crumbs hInv.crumbs_ne
  have := hInv.crumbs_lt i hi
  omega

/-- C10: for every input slice of strings, `collapse_to_json` returns a
string without reaching any panic site: the split of a line always yields
a first token (the `expect("stack")` is unreachable), the crumbs always
contain at least the root and only valid arena indices (the indexings and
`crumbs.last()` never fail), and serializing the built arena always
succeeds. -/
theorem c10_builder_total (stks : List String) :
    ∃ s, collapse_to_json stks = some s := by
  obtain ⟨st, hb, hInv⟩ := buildState_ok stks
  obtain ⟨s, hs⟩ := serde_json_to_string_ok st.arena hInv.good (arena_pos_of_inv st hInv)
  refine ⟨s, ?_⟩
  simp only [collapse_to_json, hb, hs]

/-- C6: for every input, the JSON encoding of the built tree succeeds —
the serializer hands its immediate caller an `ok` result (mirroring the
`Result` returned by `serde_json::to_string`), and `collapse_to_json`
returns that string without the `.expect` ever turning an error into a
panic; encoding is the only fallible step of the serialization. -/
theorem c6_encoding_never_fails (stks : List String) :
    ∃ st s, buildState stks = some st ∧
      serde_json_to_string st.arena = Except.ok s ∧
      collapse_to_json stks = some s := by
  obtain ⟨st, hb, hInv⟩ := buildState_ok stks
  obtain ⟨s, hs⟩ := serde_json_to_string_ok st.arena hInv.good (arena_pos_of_inv st hInv)
  refine ⟨st, s, hb, hs, ?_⟩
  simp only [collapse_to_json, hb, hs]
